import Mathlib

/-!
Shallow embedding of the calligraphy stroke-evaluation engine
(`src/frontend/src/modules/calligraphy/templateLoader.ts` and the
interaction-session state of `TracingCanvas.tsx`).

JavaScript numbers are modelled as extended reals (`EReal`): every value
occurring in the evaluator is either a finite real or `Number.POSITIVE_INFINITY`
(the sentinel deviation), and the JS arithmetic on the values actually reached
(`Infinity / c` for `c > 0`, `x - Infinity`, `Infinity * 35`, comparisons)
agrees with the `EReal` operations.  Purely finite quantities (coordinates,
coverage, threshold) are plain reals.
-/

noncomputable section

namespace Calligraphy

/-- A 2-D point (`types.ts` `Point`; the optional `pressure` field is never
used by the evaluation code, so it is omitted). -/
structure Point where
  x : ℝ
  y : ℝ
deriving DecidableEq

/-- Fallback point used to totalize JS array indexing (all indexing in the
source stays in bounds on the reached paths). -/
def defaultPoint : Point := ⟨0, 0⟩

/-- `distance` (templateLoader.ts line 32): `Math.hypot(a.x - b.x, a.y - b.y)`. -/
def distance (a b : Point) : ℝ :=
  Real.sqrt ((a.x - b.x) ^ 2 + (a.y - b.y) ^ 2)

/-- Lengths of the consecutive segments of a polyline: the increments pushed
into `lengthSegments` by the loop at templateLoader.ts lines 40–43. -/
def segmentLengths : List Point → List ℝ
  | [] => []
  | [_] => []
  | a :: b :: rest => distance a b :: segmentLengths (b :: rest)

/-- The `lengthSegments` array of `resamplePath`: cumulative arc lengths,
starting with `0` (templateLoader.ts lines 38–43). -/
def lengthSegments (points : List Point) : List ℝ :=
  (segmentLengths points).scanl (· + ·) 0

/-- `Array.prototype.findIndex` for the predicate `value >= target`
(templateLoader.ts line 52), as an option instead of `-1`. -/
def findIdxGe (target : ℝ) : List ℝ → Option ℕ
  | [] => none
  | v :: rest => if target ≤ v then some 0 else (findIdxGe target rest).map (· + 1)

/-- The body of the sampling loop of `resamplePath`
(templateLoader.ts lines 50–67): the `i`-th output sample. -/
def resampleAt (points : List Point) (segs : List ℝ) (totalLength : ℝ)
    (sampleCount i : ℕ) : Point :=
  let target := totalLength * i / ((sampleCount : ℝ) - 1)
  let idx : ℕ := (findIdxGe target segs).getD (segs.length - 1)
  let prevIdx := idx - 1
  let prevLength := segs.getD prevIdx 0
  let nextLength := segs.getD idx 0
  let segmentLength := if nextLength - prevLength = 0 then 1 else nextLength - prevLength
  let t := (target - prevLength) / segmentLength
  let prevPoint := points.getD prevIdx defaultPoint
  let nextPoint := points.getD idx defaultPoint
  ⟨prevPoint.x + (nextPoint.x - prevPoint.x) * t,
   prevPoint.y + (nextPoint.y - prevPoint.y) * t⟩

/-- `resamplePath` (templateLoader.ts lines 34–69; the source default for
`sampleCount` is 120, callers pass 90 and 160). -/
def resamplePath (points : List Point) (sampleCount : ℕ) : List Point :=
  if points = [] then []
  else
    let totalLength := (segmentLengths points).sum
    if totalLength = 0 then points
    else (List.range sampleCount).map
      (resampleAt points (lengthSegments points) totalLength sampleCount)

/-- One cubic-segment sample of `catmullRomSpline`
(templateLoader.ts lines 84–98). -/
def splinePoint (p0 p1 p2 p3 : Point) (tension : ℝ) (segments j : ℕ) : Point :=
  let t : ℝ := (j : ℝ) / (segments : ℝ)
  let tt := t * t
  let ttt := tt * t
  let q0 := -tension * ttt + 2 * tension * tt - tension * t
  let q1 := (2 - tension) * ttt + (tension - 3) * tt + 1
  let q2 := (tension - 2) * ttt + (3 - 2 * tension) * tt + tension * t
  let q3 := tension * ttt - tension * tt
  ⟨q0 * p0.x + q1 * p1.x + q2 * p2.x + q3 * p3.x,
   q0 * p0.y + q1 * p1.y + q2 * p2.y + q3 * p3.y⟩

/-- `catmullRomSpline` (templateLoader.ts lines 71–102).  The phantom control
points duplicate the first and last input point; the defaults are
`tension = 0.5`, `segments = 16`. -/
def catmullRomSpline (points : List Point) (tension : ℝ) (segments : ℕ) :
    List Point :=
  if points.length < 2 then points
  else
    let pts := points.headD defaultPoint :: points ++ [points.getLastD defaultPoint]
    let body := ((List.range (pts.length - 3)).map (fun i =>
      (List.range segments).map (fun j =>
        splinePoint (pts.getD i defaultPoint) (pts.getD (i + 1) defaultPoint)
          (pts.getD (i + 2) defaultPoint) (pts.getD (i + 3) defaultPoint)
          tension segments j))).flatten
    body ++ [points.getLastD defaultPoint]

/-- `smoothStroke` (templateLoader.ts line 104): the spline with the default
tension `0.5` and segment count `16`. -/
def smoothStroke (stroke : List Point) : List Point :=
  catmullRomSpline stroke (1 / 2) 16

/-- A rendered segment of a stroke evaluation (`types.ts`
`StrokeEvaluation.segments`; `end` is a Lean keyword, hence `stop`). -/
structure Segment where
  start : Point
  stop : Point
  color : String
deriving DecidableEq

/-- Colour attached to a segment within the threshold
(templateLoader.ts line 154). -/
def hitColor : String := "rgba(34,197,94,0.9)"

/-- Colour attached to a segment beyond the threshold
(templateLoader.ts line 154). -/
def missColor : String := "rgba(239,68,68,0.85)"

/-- `StrokeEvaluation` (`types.ts`): the deviation may be
`Number.POSITIVE_INFINITY`, hence `EReal`. -/
structure StrokeEvaluation where
  coverage : ℝ
  averageDeviation : EReal
  segments : List Segment

/-- The sentinel evaluation returned for unscoreable input
(templateLoader.ts lines 112–116). -/
def sentinelEvaluation : StrokeEvaluation :=
  ⟨0, ⊤, []⟩

/-- The `minDist` loop of `evaluateStroke` (templateLoader.ts lines 127–134
and 140–146): least distance from `p` to any point of `l`, starting from
`Number.POSITIVE_INFINITY`. -/
def nearestDist (p : Point) (l : List Point) : EReal :=
  l.foldl (fun m q => min m ((distance p q : ℝ) : EReal)) ⊤

/-- `evaluateStroke` (templateLoader.ts lines 106–166).  The dead local
`coverageHits` (incremented but never read for the result) is omitted. -/
def evaluateStroke (stroke reference : List Point) (threshold : ℝ) :
    StrokeEvaluation :=
  if stroke.length < 2 ∨ reference.length = 0 then sentinelEvaluation
  else
    let sampledStroke := resamplePath stroke 90
    let sampledReference := resamplePath reference 160
    let refDistances := sampledReference.map (fun refPoint => nearestDist refPoint sampledStroke)
    let pairs := sampledStroke.zip sampledStroke.tail
    let deviationSum : EReal := (pairs.map (fun pr => nearestDist pr.1 sampledReference)).sum
    let segments : List Segment := pairs.map (fun pr =>
      ⟨pr.1, pr.2,
        if nearestDist pr.1 sampledReference ≤ ((threshold : ℝ) : EReal)
        then hitColor else missColor⟩)
    let coverage : ℝ :=
      ((refDistances.filter (fun d => decide (d ≤ ((threshold : ℝ) : EReal)))).length : ℝ) /
        (refDistances.length : ℝ)
    let averageDeviation : EReal := deviationSum / ((sampledStroke.length : ℕ) : EReal)
    ⟨coverage, averageDeviation, segments⟩

/-- `StrokeDefinition` (`types.ts`; the optional `weight` field is never used
by the evaluation code, so it is omitted). -/
structure StrokeDefinition where
  id : String
  path : List Point

/-- `EvaluationSummary` (`types.ts`): score and deviation may involve
infinities, hence `EReal`. -/
structure EvaluationSummary where
  score : EReal
  coverage : ℝ
  averageDeviation : EReal
  message : String

/-- Prompt message of the empty-input summary (templateLoader.ts line 178). -/
def promptMessage : String := "Zacznij rysować, aby otrzymać ocenę."

/-- Message bands of `evaluateDrawing` (templateLoader.ts lines 197–204). -/
def scoreMessage (score : EReal) : String :=
  if score < ((30 : ℝ) : EReal) then
    "Spróbuj jeszcze raz — skup się na prowadzeniu linii po wzorze."
  else if score < ((60 : ℝ) : EReal) then
    "Całkiem nieźle! Zwróć uwagę na miejsca zaznaczone na czerwono."
  else if score < ((85 : ℝ) : EReal) then
    "Bardzo dobrze! Kilka fragmentów wymaga dopracowania."
  else "Świetnie! Twój szkic bardzo dobrze pokrywa wzór."

/-- JS `Math.round` on an extended real: finite values round half-up
(`⌊x + 1/2⌋`), infinities are mapped to themselves. -/
def jsRound (x : EReal) : EReal :=
  if x = ⊤ then ⊤ else if x = ⊥ then ⊥ else ((⌊x.toReal + 1 / 2⌋ : ℝ) : EReal)

/-- `evaluateDrawing` (templateLoader.ts lines 168–212). -/
def evaluateDrawing (strokes : List (List Point)) (template : List StrokeDefinition)
    (threshold : ℝ) : EvaluationSummary :=
  if strokes.length = 0 ∨ template.length = 0 then
    ⟨0, 0, ⊤, promptMessage⟩
  else
    let minStrokeCount := min strokes.length template.length
    let evals := (List.range minStrokeCount).map (fun i =>
      evaluateStroke (strokes.getD i []) ((template.getD i ⟨"", []⟩).path) threshold)
    let totalCoverage : ℝ := (evals.map (fun e => e.coverage)).sum
    let totalDeviation : EReal := (evals.map (fun e => e.averageDeviation)).sum
    let coverage : ℝ := totalCoverage / (minStrokeCount : ℝ)
    let averageDeviation : EReal := totalDeviation / ((minStrokeCount : ℕ) : EReal)
    let normalizedDeviation : EReal :=
      max (averageDeviation / ((threshold : ℝ) : EReal)) (((1 / 100 : ℝ)) : EReal)
    let score : EReal :=
      max 0 (min ((100 : ℝ) : EReal)
        (jsRound (((coverage * 100 : ℝ) : EReal) - normalizedDeviation * ((35 : ℝ) : EReal))))
    ⟨score, coverage, averageDeviation, scoreMessage score⟩

/-- The interaction-session state of `TracingCanvas.tsx`: the committed
stroke list (`strokes`) and the in-progress stroke (`activeStroke`). -/
structure TracingState where
  strokes : List (List Point)
  activeStroke : Option (List Point)
deriving DecidableEq

/-- `undo` (TracingCanvas.tsx lines 247–256): `setStrokes` keeps an empty
list and otherwise drops the last stroke (`slice(0, length - 1)`), and
`setActiveStroke(null)` clears the active stroke unconditionally. -/
def undo (s : TracingState) : TracingState :=
  { strokes := if s.strokes.length = 0 then s.strokes else s.strokes.dropLast
    activeStroke := none }

/-- `reset` (TracingCanvas.tsx lines 234–245), restricted to the session
state modelled here. -/
def reset (_ : TracingState) : TracingState :=
  { strokes := [], activeStroke := none }

/-- Scaling a point by a factor `k` (used to state the joint
scale-invariance of the evaluator). -/
def scalePoint (k : ℝ) (p : Point) : Point := ⟨k * p.x, k * p.y⟩

/-- Scaling every point of a path by `k`. -/
def scalePath (k : ℝ) (l : List Point) : List Point := l.map (scalePoint k)

end Calligraphy

namespace Calligraphy

/-! ### Basic evaluation lemmas -/

theorem distance_self (p : Point) : distance p p = 0 := by
  simp [distance]

theorem distance_nonneg (a b : Point) : 0 ≤ distance a b :=
  Real.sqrt_nonneg _

/-- The guard of `evaluateStroke` as it is written in the source. -/
theorem evaluateStroke_degenerate {stroke reference : List Point} (t : ℝ)
    (h : stroke.length < 2 ∨ reference.length = 0) :
    evaluateStroke stroke reference t = sentinelEvaluation := by
  rw [evaluateStroke, if_pos h]

/-- On a two-point path with coincident points the total length is zero, so
`resamplePath` returns the input verbatim. -/
theorem resamplePath_pair_self (p : Point) (n : ℕ) :
    resamplePath [p, p] n = [p, p] := by
  simp [resamplePath, segmentLengths, distance_self]

/-- `resamplePath` on a singleton returns the singleton. -/
theorem resamplePath_singleton (p : Point) (n : ℕ) :
    resamplePath [p] n = [p] := by
  simp [resamplePath, segmentLengths]

theorem min_top_left_ereal (x : EReal) : min ⊤ x = x :=
  min_eq_right le_top

/-! ### C1 -/

/-- C1, counterexample: a two-point stroke against a *singleton* reference is
not given the sentinel evaluation — the code's guard is
`stroke.length < 2 || reference.length === 0`, so a one-point reference is
scored (here with coverage 1). -/
theorem C1_counterexample :
    evaluateStroke [(⟨0, 0⟩ : Point), ⟨0, 0⟩] [(⟨0, 0⟩ : Point)] 1 ≠
      sentinelEvaluation := by
  intro h
  have hcov : (evaluateStroke [(⟨0, 0⟩ : Point), ⟨0, 0⟩] [(⟨0, 0⟩ : Point)] 1).coverage = 1 := by
    rw [evaluateStroke, if_neg (by simp)]
    simp [resamplePath_pair_self, resamplePath_singleton, nearestDist,
      distance_self, min_top_left_ereal]
  rw [h] at hcov
  simp [sentinelEvaluation] at hcov

/-- C1, amended: for every threshold > 0, `evaluateStroke` returns the
sentinel evaluation (coverage 0, deviation +∞, no segments) whenever the
stroke has fewer than 2 points **or the reference path is empty** (a
singleton reference is still scored). -/
theorem C1_sentinel (stroke reference : List Point) (threshold : ℝ)
    (ht : 0 < threshold) (h : stroke.length < 2 ∨ reference = []) :
    evaluateStroke stroke reference threshold = sentinelEvaluation := by
  refine evaluateStroke_degenerate threshold ?_
  rcases h with h | h
  · exact Or.inl h
  · exact Or.inr (by simp [h])

theorem C1_sentinel_witness :
    0 < (1 : ℝ) ∧
      evaluateStroke [(⟨0, 0⟩ : Point)] [(⟨1, 2⟩ : Point), ⟨3, 4⟩] 1 =
        sentinelEvaluation :=
  ⟨one_pos, C1_sentinel [⟨0, 0⟩] [⟨1, 2⟩, ⟨3, 4⟩] 1 one_pos (Or.inl (by simp))⟩

/-! ### C3 -/

/-- C3, counterexample: with an empty committed list and an in-progress
active stroke, `undo` does *not* leave the state unchanged — it clears the
active stroke (`setActiveStroke(null)` is unconditional). -/
theorem C3_counterexample :
    undo ⟨[], some [(⟨0, 0⟩ : Point)]⟩ ≠
      (⟨[], some [(⟨0, 0⟩ : Point)]⟩ : TracingState) := by
  simp [undo]

/-- C3, amended: `undo` removes exactly the most recently committed stroke
(a no-op on the committed list when it is empty) **and always clears the
active stroke, in-progress or not**; after committing exactly one stroke
(with no active stroke) a single `undo` returns the session to the empty
state. -/
theorem C3_undo (s : TracingState) :
    undo s = ⟨s.strokes.dropLast, none⟩ ∧
      (∀ st : List Point, undo ⟨[st], none⟩ = ⟨[], none⟩) := by
  refine ⟨?_, fun st => by simp [undo]⟩
  rw [undo]
  rcases s.strokes with _ | ⟨a, l⟩ <;> simp

/-! ### C8 -/

/-- C8: `evaluateDrawing` with an empty stroke list or an empty reference
list returns the zero/sentinel summary (score 0, coverage 0, deviation +∞)
carrying the prompt-to-start message; being a total function it never
throws. -/
theorem C8_empty_inputs (strokes : List (List Point))
    (template : List StrokeDefinition) (t : ℝ) :
    evaluateDrawing [] template t = ⟨0, 0, ⊤, promptMessage⟩ ∧
      evaluateDrawing strokes [] t = ⟨0, 0, ⊤, promptMessage⟩ := by
  constructor <;> · rw [evaluateDrawing, if_pos (by simp)]

/-! ### C7 -/

theorem segmentLengths_sum_of_const {c : Point} :
    ∀ l : List Point, (∀ p ∈ l, p = c) → (segmentLengths l).sum = 0 := by
  intro l
  induction l with
  | nil => intro _; simp [segmentLengths]
  | cons a l ih =>
    intro h
    rcases l with _ | ⟨b, rest⟩
    · simp [segmentLengths]
    · have ha : a = c := h a (by simp)
      have hb : b = c := h b (by simp)
      subst ha; subst hb
      have hrest := fun p hp => h p (List.mem_cons_of_mem _ hp)
      simp [segmentLengths, distance_self, ih hrest]

/-- C7: `resamplePath` returns `[]` on `[]`; returns exactly `sampleCount`
points whenever the total arc length is positive; and returns the input
verbatim (no division by zero) when all points of a non-empty input
coincide. -/
theorem C7_resample (points : List Point) (n : ℕ) :
    resamplePath [] n = [] ∧
      (0 < (segmentLengths points).sum → (resamplePath points n).length = n) ∧
      ((points ≠ [] ∧ ∀ p ∈ points, p = points.headD defaultPoint) →
        resamplePath points n = points) := by
  refine ⟨by simp [resamplePath], ?_, ?_⟩
  · intro h
    have hne : points ≠ [] := by
      rintro rfl
      simp [segmentLengths] at h
    rw [resamplePath, if_neg hne, if_neg (ne_of_gt h)]
    simp
  · rintro ⟨hne, hall⟩
    rw [resamplePath, if_neg hne]
    rw [if_pos (segmentLengths_sum_of_const points hall)]

theorem C7_resample_witness :
    (0 < (segmentLengths [(⟨0, 0⟩ : Point), ⟨1, 0⟩]).sum ∧
        (resamplePath [(⟨0, 0⟩ : Point), ⟨1, 0⟩] 7).length = 7) ∧
      (([(⟨2, 3⟩ : Point), ⟨2, 3⟩] : List Point) ≠ [] ∧
        resamplePath [(⟨2, 3⟩ : Point), ⟨2, 3⟩] 5 = [⟨2, 3⟩, ⟨2, 3⟩]) := by
  have hpos : 0 < (segmentLengths [(⟨0, 0⟩ : Point), ⟨1, 0⟩]).sum := by
    have h1 : distance ⟨0, 0⟩ ⟨1, 0⟩ = 1 := by
      rw [distance, show ((0 : ℝ) - 1) ^ 2 + ((0 : ℝ) - 0) ^ 2 = 1 ^ 2 by norm_num]
      exact Real.sqrt_sq (by norm_num)
    simp [segmentLengths, h1]
  exact ⟨⟨hpos, (C7_resample _ 7).2.1 hpos⟩,
    ⟨by simp, (C7_resample _ 5).2.2 ⟨by simp, by simp⟩⟩⟩

/-! ### C2 -/

theorem zip_tail_map_fst {α : Type} :
    ∀ l : List α, (l.zip l.tail).map Prod.fst = l.dropLast := by
  intro l
  induction l with
  | nil => simp
  | cons a l ih =>
    rcases l with _ | ⟨b, rest⟩
    · simp
    · simpa using ih

/-- The deviation as §4.2 of the spec words it: the arithmetic mean over
**all** points of the resampled stroke of the nearest distance to any
resampled reference point. -/
def specMeanDeviation (stroke reference : List Point) : EReal :=
  (((resamplePath stroke 90).map
      (fun p => nearestDist p (resamplePath reference 160))).sum) /
    (((resamplePath stroke 90).length : ℕ) : EReal)

theorem nearestDist_pair (p q : Point) :
    nearestDist p [q, q] = ((distance p q : ℝ) : EReal) := by
  simp [nearestDist, min_top_left_ereal]

theorem ereal_div_two (r : ℝ) : ((r : ℝ) : EReal) / (2 : EReal) = ((r / 2 : ℝ) : EReal) := by
  rw [show (2 : EReal) = ((2 : ℝ) : EReal) from rfl, ← EReal.coe_div]

theorem distance_horizontal : distance ⟨0, 0⟩ ⟨5, 0⟩ = 5 := by
  rw [distance, show ((0 : ℝ) - 5) ^ 2 + ((0 : ℝ) - 0) ^ 2 = 5 ^ 2 by norm_num]
  exact Real.sqrt_sq (by norm_num)

/-- C2, counterexample: for the two-point stroke `[(0,0),(0,0)]` against the
reference `[(5,0),(5,0)]`, every resampled stroke point has nearest distance
5, so the spec's mean is 5 — but the code sums over all stroke points
*except the last* and still divides by the full count, returning 5/2. -/
theorem C2_counterexample :
    (evaluateStroke [(⟨0, 0⟩ : Point), ⟨0, 0⟩] [(⟨5, 0⟩ : Point), ⟨5, 0⟩] 1).averageDeviation ≠
      specMeanDeviation [(⟨0, 0⟩ : Point), ⟨0, 0⟩] [(⟨5, 0⟩ : Point), ⟨5, 0⟩] := by
  have hL :
      (evaluateStroke [(⟨0, 0⟩ : Point), ⟨0, 0⟩] [(⟨5, 0⟩ : Point), ⟨5, 0⟩] 1).averageDeviation =
        (((5 : ℝ) / 2 : ℝ) : EReal) := by
    rw [evaluateStroke, if_neg (by simp)]
    simp only [resamplePath_pair_self]
    simp [nearestDist_pair, distance_horizontal, ereal_div_two]
  have hR :
      specMeanDeviation [(⟨0, 0⟩ : Point), ⟨0, 0⟩] [(⟨5, 0⟩ : Point), ⟨5, 0⟩] =
        (((10 : ℝ) / 2 : ℝ) : EReal) := by
    rw [specMeanDeviation]
    simp only [resamplePath_pair_self]
    simp [nearestDist_pair, distance_horizontal, ereal_div_two, ← EReal.coe_add]
    norm_num [EReal.coe_eq_coe_iff]
  rw [hL, hR]
  intro h
  rw [EReal.coe_eq_coe_iff] at h
  norm_num at h

/-- C2, amended: for a stroke and reference with at least 2 points each and
threshold > 0, the `averageDeviation` equals the sum, over all points of the
resampled stroke **except the last**, of the point's nearest distance to any
resampled reference point, divided by the **total** number of resampled
stroke points. -/
theorem C2_deviation (stroke reference : List Point) (threshold : ℝ)
    (hs : 2 ≤ stroke.length) (hr : 2 ≤ reference.length) (ht : 0 < threshold) :
    (evaluateStroke stroke reference threshold).averageDeviation =
      (((resamplePath stroke 90).dropLast.map
          (fun p => nearestDist p (resamplePath reference 160))).sum) /
        (((resamplePath stroke 90).length : ℕ) : EReal) := by
  rw [evaluateStroke, if_neg (by simp only [not_or, not_lt]; omega)]
  rw [← zip_tail_map_fst (resamplePath stroke 90), List.map_map]
  rfl

theorem C2_deviation_witness :
    2 ≤ ([(⟨0, 0⟩ : Point), ⟨0, 0⟩] : List Point).length ∧
      (evaluateStroke [(⟨0, 0⟩ : Point), ⟨0, 0⟩] [(⟨5, 0⟩ : Point), ⟨5, 0⟩] 3).averageDeviation =
        (((resamplePath [(⟨0, 0⟩ : Point), ⟨0, 0⟩] 90).dropLast.map
            (fun p => nearestDist p (resamplePath [(⟨5, 0⟩ : Point), ⟨5, 0⟩] 160))).sum) /
          (((resamplePath [(⟨0, 0⟩ : Point), ⟨0, 0⟩] 90).length : ℕ) : EReal) :=
  ⟨by simp,
    C2_deviation [⟨0, 0⟩, ⟨0, 0⟩] [⟨5, 0⟩, ⟨5, 0⟩] 3 (by simp) (by simp) (by norm_num)⟩

/-! ### C9 -/

theorem splinePoint_zero (p0 p1 p2 p3 : Point) (tension : ℝ) (segments : ℕ) :
    splinePoint p0 p1 p2 p3 tension segments 0 = p1 := by
  cases p1 with
  | mk x y =>
    simp only [splinePoint, Nat.cast_zero, zero_div]
    norm_num

theorem catmullRomSpline_getLast (pts : List Point) (τ : ℝ) (s : ℕ)
    (h : 2 ≤ pts.length) :
    (catmullRomSpline pts τ s).getLast? = pts.getLast? := by
  have hne : pts ≠ [] := by rintro rfl; simp at h
  rw [catmullRomSpline, if_neg (by omega)]
  rw [List.getLast?_concat]
  obtain ⟨x, hx⟩ := Option.isSome_iff_exists.1 (List.getLast?_isSome.2 hne)
  rw [hx, List.getLastD_eq_getLast?, hx]
  rfl

theorem catmullRomSpline_head (a b : Point) (rest : List Point) (τ : ℝ) (m : ℕ) :
    (catmullRomSpline (a :: b :: rest) τ (m + 1)).head? = some a := by
  rw [catmullRomSpline, if_neg (by simp)]
  simp only [List.headD_cons, List.cons_append]
  have hn : (a :: a :: b :: (rest ++ [(a :: b :: rest).getLastD defaultPoint])).length - 3 =
      rest.length + 1 := by simp
  rw [hn]
  simp only [List.range_succ_eq_map, List.map_cons, List.flatten_cons,
    List.cons_append, List.head?_cons, splinePoint_zero]
  rfl

/-- C9: `smoothStroke` returns inputs of fewer than 2 points unchanged, and
for inputs of at least 2 points the smoothed curve starts at the first input
point and ends at the last input point (the phantom duplicated control
points make the spline interpolate the endpoints). -/
theorem C9_smoothStroke (points : List Point) :
    (points.length < 2 → smoothStroke points = points) ∧
      (2 ≤ points.length →
        (smoothStroke points).head? = points.head? ∧
          (smoothStroke points).getLast? = points.getLast?) := by
  constructor
  · intro h
    rw [smoothStroke, catmullRomSpline, if_pos h]
  · intro h
    refine ⟨?_, catmullRomSpline_getLast points (1 / 2) 16 h⟩
    rcases points with _ | ⟨a, _ | ⟨b, rest⟩⟩
    · simp at h
    · simp at h
    · rw [smoothStroke, show (16 : ℕ) = 15 + 1 by norm_num,
        catmullRomSpline_head a b rest (1 / 2) 15, List.head?_cons]

theorem C9_smoothStroke_witness :
    smoothStroke [(⟨1, 2⟩ : Point)] = [⟨1, 2⟩] ∧
      (smoothStroke [(⟨0, 0⟩ : Point), ⟨3, 4⟩]).head? = some ⟨0, 0⟩ ∧
        (smoothStroke [(⟨0, 0⟩ : Point), ⟨3, 4⟩]).getLast? = some ⟨3, 4⟩ := by
  refine ⟨(C9_smoothStroke [⟨1, 2⟩]).1 (by simp), ?_, ?_⟩
  · rw [((C9_smoothStroke [⟨0, 0⟩, ⟨3, 4⟩]).2 (by simp)).1, List.head?_cons]
  · rw [((C9_smoothStroke [⟨0, 0⟩, ⟨3, 4⟩]).2 (by simp)).2]
    rfl

/-! ### C4: pairwise aggregation of `evaluateDrawing` -/

/-- Number of scored stroke/reference pairs:
`min(strokes.length, template.length)`. -/
def pairCount (strokes : List (List Point)) (template : List StrokeDefinition) : ℕ :=
  min strokes.length template.length

/-- The `i`-th pairwise evaluation performed by `evaluateDrawing`. -/
def pairEval (strokes : List (List Point)) (template : List StrokeDefinition)
    (threshold : ℝ) (i : ℕ) : StrokeEvaluation :=
  evaluateStroke (strokes.getD i []) ((template.getD i ⟨"", []⟩).path) threshold

/-- Summary coverage as the arithmetic mean of the pairwise coverages. -/
def drawCoverage (strokes : List (List Point)) (template : List StrokeDefinition)
    (threshold : ℝ) : ℝ :=
  (∑ i ∈ Finset.range (pairCount strokes template),
      (pairEval strokes template threshold i).coverage) /
    ((pairCount strokes template : ℕ) : ℝ)

/-- Summary deviation as the mean of the pairwise average deviations. -/
def drawDeviation (strokes : List (List Point)) (template : List StrokeDefinition)
    (threshold : ℝ) : EReal :=
  (∑ i ∈ Finset.range (pairCount strokes template),
      (pairEval strokes template threshold i).averageDeviation) /
    ((pairCount strokes template : ℕ) : EReal)

/-- The score formula of the code, §4.3 of the spec plus the `Math.round`:
`clamp(round(coverage*100 - max(deviation/threshold, 0.01)*35), 0, 100)`. -/
def clampRoundScore (coverage : ℝ) (averageDeviation : EReal) (threshold : ℝ) : EReal :=
  max 0 (min ((100 : ℝ) : EReal)
    (jsRound (((coverage * 100 : ℝ) : EReal) -
      max (averageDeviation / ((threshold : ℝ) : EReal)) (((1 / 100 : ℝ)) : EReal) *
        ((35 : ℝ) : EReal))))

/-- Summary score of `evaluateDrawing` in terms of the summary coverage and
deviation. -/
def drawScore (strokes : List (List Point)) (template : List StrokeDefinition)
    (threshold : ℝ) : EReal :=
  clampRoundScore (drawCoverage strokes template threshold)
    (drawDeviation strokes template threshold) threshold

theorem list_range_map_sum {M : Type} [AddCommMonoid M] (g : ℕ → M) (n : ℕ) :
    ((List.range n).map g).sum = ∑ i ∈ Finset.range n, g i := by
  induction n with
  | zero => simp
  | succ n ih =>
    rw [List.range_succ, List.map_append, List.sum_append, Finset.sum_range_succ, ih]
    simp

/-- Closed form of `evaluateDrawing` on non-empty inputs. -/
theorem evaluateDrawing_eq (strokes : List (List Point))
    (template : List StrokeDefinition) (threshold : ℝ)
    (h : ¬(strokes.length = 0 ∨ template.length = 0)) :
    evaluateDrawing strokes template threshold =
      ⟨drawScore strokes template threshold,
        drawCoverage strokes template threshold,
        drawDeviation strokes template threshold,
        scoreMessage (drawScore strokes template threshold)⟩ := by
  rw [evaluateDrawing, if_neg h]
  simp only [List.map_map, Function.comp, list_range_map_sum]
  rfl

theorem getD_take {α : Type} (l : List α) (n i : ℕ) (d : α) (h : i < n) :
    (l.take n).getD i d = l.getD i d := by
  by_cases hi : i < l.length
  · have h1 : i < (l.take n).length := by
      rw [List.length_take]
      omega
    rw [List.getD_eq_getElem _ _ h1, List.getD_eq_getElem _ _ hi]
    exact List.getElem_take l
  · rw [List.getD_eq_default _ _ (by rw [List.length_take]; omega),
      List.getD_eq_default _ _ (by omega)]

/-- C4: on non-empty inputs, `evaluateDrawing` scores exactly the pairs
`i < n = min(len strokes, len template)`: its coverage and deviation are the
arithmetic means of the `n` pairwise evaluations, and truncating both lists
to their first `n` elements does not change the summary at all. -/
theorem C4_pairwise (strokes : List (List Point)) (template : List StrokeDefinition)
    (threshold : ℝ) (hs : strokes ≠ []) (hr : template ≠ []) (ht : 0 < threshold) :
    (evaluateDrawing strokes template threshold).coverage =
      (∑ i ∈ Finset.range (min strokes.length template.length),
        (evaluateStroke (strokes.getD i []) ((template.getD i ⟨"", []⟩).path)
          threshold).coverage) / ((min strokes.length template.length : ℕ) : ℝ) ∧
    (evaluateDrawing strokes template threshold).averageDeviation =
      (∑ i ∈ Finset.range (min strokes.length template.length),
        (evaluateStroke (strokes.getD i []) ((template.getD i ⟨"", []⟩).path)
          threshold).averageDeviation) /
        ((min strokes.length template.length : ℕ) : EReal) ∧
    evaluateDrawing strokes template threshold =
      evaluateDrawing (strokes.take (min strokes.length template.length))
        (template.take (min strokes.length template.length)) threshold := by
  have h : ¬(strokes.length = 0 ∨ template.length = 0) := by
    simp only [List.length_eq_zero, not_or]
    exact ⟨hs, hr⟩
  have hlen1 : 1 ≤ strokes.length := by
    rcases strokes with _ | _
    · exact absurd rfl hs
    · simp
  have hlen2 : 1 ≤ template.length := by
    rcases template with _ | _
    · exact absurd rfl hr
    · simp
  refine ⟨by rw [evaluateDrawing_eq _ _ _ h]; rfl,
    by rw [evaluateDrawing_eq _ _ _ h]; rfl, ?_⟩
  have hn1 : (strokes.take (min strokes.length template.length)).length =
      min strokes.length template.length := by
    rw [List.length_take]
    omega
  have hn2 : (template.take (min strokes.length template.length)).length =
      min strokes.length template.length := by
    rw [List.length_take]
    omega
  have h' : ¬((strokes.take (min strokes.length template.length)).length = 0 ∨
      (template.take (min strokes.length template.length)).length = 0) := by
    rw [hn1, hn2]
    omega
  have hpc : pairCount (strokes.take (min strokes.length template.length))
      (template.take (min strokes.length template.length)) = pairCount strokes template := by
    rw [pairCount, hn1, hn2, pairCount, min_self]
  have hpe : ∀ i < pairCount strokes template,
      pairEval (strokes.take (min strokes.length template.length))
        (template.take (min strokes.length template.length)) threshold i =
        pairEval strokes template threshold i := by
    intro i hi
    have hi' : i < min strokes.length template.length := hi
    rw [pairEval, pairEval, getD_take strokes _ _ _ hi', getD_take template _ _ _ hi']
  have hcov : drawCoverage (strokes.take (min strokes.length template.length))
      (template.take (min strokes.length template.length)) threshold =
      drawCoverage strokes template threshold := by
    rw [drawCoverage, drawCoverage, hpc]
    congr 1
    exact Finset.sum_congr rfl fun i hi => by
      rw [hpe i (Finset.mem_range.1 hi)]
  have hdev : drawDeviation (strokes.take (min strokes.length template.length))
      (template.take (min strokes.length template.length)) threshold =
      drawDeviation strokes template threshold := by
    rw [drawDeviation, drawDeviation, hpc]
    congr 1
    exact Finset.sum_congr rfl fun i hi => by
      rw [hpe i (Finset.mem_range.1 hi)]
  have hscore : drawScore (strokes.take (min strokes.length template.length))
      (template.take (min strokes.length template.length)) threshold =
      drawScore strokes template threshold := by
    rw [drawScore, drawScore, hcov, hdev]
  rw [evaluateDrawing_eq _ _ _ h, evaluateDrawing_eq _ _ _ h', hcov, hdev, hscore]

theorem C4_pairwise_witness :
    ([[(⟨0, 0⟩ : Point), ⟨0, 0⟩]] : List (List Point)) ≠ [] ∧
      (evaluateDrawing [[(⟨0, 0⟩ : Point), ⟨0, 0⟩]]
          [(⟨"s1", [(⟨5, 0⟩ : Point), ⟨5, 0⟩]⟩ : StrokeDefinition)] 1).coverage =
        (∑ i ∈ Finset.range 1,
          (evaluateStroke (([[(⟨0, 0⟩ : Point), ⟨0, 0⟩]] : List (List Point)).getD i [])
            ((([(⟨"s1", [(⟨5, 0⟩ : Point), ⟨5, 0⟩]⟩ : StrokeDefinition)] :
              List StrokeDefinition).getD i ⟨"", []⟩).path) 1).coverage) / ((1 : ℕ) : ℝ) := by
  refine ⟨by simp, ?_⟩
  have h := (C4_pairwise [[(⟨0, 0⟩ : Point), ⟨0, 0⟩]]
    [(⟨"s1", [(⟨5, 0⟩ : Point), ⟨5, 0⟩]⟩ : StrokeDefinition)] 1
    (by simp) (by simp) (by norm_num)).1
  simpa using h

/-! ### C5 -/

theorem ereal_coe_min (a b : ℝ) :
    min ((a : ℝ) : EReal) ((b : ℝ) : EReal) = ((min a b : ℝ) : EReal) := by
  rcases le_total a b with h | h
  · rw [min_eq_left h, min_eq_left (EReal.coe_le_coe_iff.2 h)]
  · rw [min_eq_right h, min_eq_right (EReal.coe_le_coe_iff.2 h)]

theorem ereal_coe_max (a b : ℝ) :
    max ((a : ℝ) : EReal) ((b : ℝ) : EReal) = ((max a b : ℝ) : EReal) := by
  rcases le_total a b with h | h
  · rw [max_eq_right h, max_eq_right (EReal.coe_le_coe_iff.2 h)]
  · rw [max_eq_left h, max_eq_left (EReal.coe_le_coe_iff.2 h)]

theorem jsRound_coe (r : ℝ) :
    jsRound ((r : ℝ) : EReal) = ((⌊r + 1 / 2⌋ : ℝ) : EReal) := by
  rw [jsRound, if_neg (EReal.coe_ne_top r), if_neg (EReal.coe_ne_bot r),
    EReal.toReal_coe]

theorem distance_comm (a b : Point) : distance a b = distance b a := by
  rw [distance, distance]
  congr 1
  ring

/-- `clampRoundScore` on finite inputs, fully in the reals. -/
theorem clampRoundScore_coe (coverage : ℝ) (d threshold : ℝ) :
    clampRoundScore coverage ((d : ℝ) : EReal) threshold =
      ((max 0 (min 100 (⌊coverage * 100 - max (d / threshold) (1 / 100) * 35 + 1 / 2⌋ : ℝ)) : ℝ) : EReal) := by
  rw [clampRoundScore, ← EReal.coe_div, ereal_coe_max, ← EReal.coe_mul, ← EReal.coe_sub,
    jsRound_coe, ereal_coe_min, show (0 : EReal) = ((0 : ℝ) : EReal) from rfl, ereal_coe_max]

/-- The score as §4.3 of the spec words it, with **no** rounding:
`clamp(coverage*100 - max(deviation/threshold, 0.01)*35, 0, 100)`. -/
def specClampScore (coverage : ℝ) (averageDeviation : EReal) (threshold : ℝ) : EReal :=
  max 0 (min ((100 : ℝ) : EReal)
    (((coverage * 100 : ℝ) : EReal) -
      max (averageDeviation / ((threshold : ℝ) : EReal)) (((1 / 100 : ℝ)) : EReal) *
        ((35 : ℝ) : EReal)))

theorem distance_horizontal5 : distance ⟨5, 0⟩ ⟨0, 0⟩ = 5 := by
  rw [distance_comm]
  exact distance_horizontal

/-- Full evaluation of the degenerate pair used as concrete input: a
two-point stroke at the origin against a two-point reference at (5,0),
threshold 10. -/
theorem evaluateStroke_pair :
    evaluateStroke [(⟨0, 0⟩ : Point), ⟨0, 0⟩] [(⟨5, 0⟩ : Point), ⟨5, 0⟩] 10 =
      ⟨1, ((5 / 2 : ℝ) : EReal), [⟨⟨0, 0⟩, ⟨0, 0⟩, hitColor⟩]⟩ := by
  rw [evaluateStroke, if_neg (by simp)]
  simp only [resamplePath_pair_self]
  norm_num [nearestDist_pair, distance_horizontal, distance_horizontal5,
    EReal.coe_le_coe_iff, ereal_div_two]

theorem drawCoverage_pair :
    drawCoverage [[(⟨0, 0⟩ : Point), ⟨0, 0⟩]]
      [(⟨"s1", [(⟨5, 0⟩ : Point), ⟨5, 0⟩]⟩ : StrokeDefinition)] 10 = 1 := by
  rw [drawCoverage]
  norm_num [pairCount, pairEval, evaluateStroke_pair]

theorem drawDeviation_pair :
    drawDeviation [[(⟨0, 0⟩ : Point), ⟨0, 0⟩]]
      [(⟨"s1", [(⟨5, 0⟩ : Point), ⟨5, 0⟩]⟩ : StrokeDefinition)] 10 =
      ((5 / 2 : ℝ) : EReal) := by
  rw [drawDeviation]
  norm_num [pairCount, pairEval, evaluateStroke_pair]

/-- C5, counterexample: at the concrete drawing above the code's score is
`round(91.25) = 91`, while the claim's un-rounded clamp formula gives
`91.25`; the claim omits the `Math.round` of line 195. -/
theorem C5_counterexample :
    (evaluateDrawing [[(⟨0, 0⟩ : Point), ⟨0, 0⟩]]
        [(⟨"s1", [(⟨5, 0⟩ : Point), ⟨5, 0⟩]⟩ : StrokeDefinition)] 10).score ≠
      specClampScore
        (evaluateDrawing [[(⟨0, 0⟩ : Point), ⟨0, 0⟩]]
          [(⟨"s1", [(⟨5, 0⟩ : Point), ⟨5, 0⟩]⟩ : StrokeDefinition)] 10).coverage
        (evaluateDrawing [[(⟨0, 0⟩ : Point), ⟨0, 0⟩]]
          [(⟨"s1", [(⟨5, 0⟩ : Point), ⟨5, 0⟩]⟩ : StrokeDefinition)] 10).averageDeviation
        10 := by
  rw [evaluateDrawing_eq _ _ _ (by simp)]
  show drawScore _ _ _ ≠ specClampScore (drawCoverage _ _ _) (drawDeviation _ _ _) _
  rw [drawScore, drawCoverage_pair, drawDeviation_pair, clampRoundScore_coe,
    specClampScore, ← EReal.coe_div, ereal_coe_max, ← EReal.coe_mul, ← EReal.coe_sub,
    ereal_coe_min, show (0 : EReal) = ((0 : ℝ) : EReal) from rfl, ereal_coe_max]
  rw [show max (0 : ℝ) (min 100 (⌊(1 : ℝ) * 100 - max (5 / 2 / 10) (1 / 100) * 35 + 1 / 2⌋ : ℝ)) = 91 by
    norm_num [Int.floor_eq_iff]]
  rw [show max (0 : ℝ) (min 100 ((1 : ℝ) * 100 - max (5 / 2 / 10) (1 / 100) * 35)) = 91.25 by norm_num]
  intro h
  rw [EReal.coe_eq_coe_iff] at h
  norm_num at h

/-- C5, amended: on non-empty inputs with threshold > 0 the score equals
`clamp(round(coverage*100 - max(averageDeviation/threshold, 0.01)*35), 0, 100)`
applied to the summary's own coverage and averageDeviation (the claim's
formula holds only after inserting the `Math.round`); in particular the
score always lies in [0, 100]. -/
theorem C5_score (strokes : List (List Point)) (template : List StrokeDefinition)
    (threshold : ℝ) (hs : strokes ≠ []) (hr : template ≠ []) (ht : 0 < threshold) :
    (evaluateDrawing strokes template threshold).score =
      clampRoundScore (evaluateDrawing strokes template threshold).coverage
        (evaluateDrawing strokes template threshold).averageDeviation threshold ∧
      0 ≤ (evaluateDrawing strokes template threshold).score ∧
      (evaluateDrawing strokes template threshold).score ≤ ((100 : ℝ) : EReal) := by
  have h : ¬(strokes.length = 0 ∨ template.length = 0) := by
    simp only [List.length_eq_zero, not_or]
    exact ⟨hs, hr⟩
  rw [evaluateDrawing_eq _ _ _ h]
  refine ⟨rfl, le_max_left 0 _, ?_⟩
  exact max_le (EReal.coe_nonneg.2 (by norm_num)) (min_le_left _ _)

theorem C5_score_witness :
    ([[(⟨0, 0⟩ : Point), ⟨0, 0⟩]] : List (List Point)) ≠ [] ∧
      0 ≤ (evaluateDrawing [[(⟨0, 0⟩ : Point), ⟨0, 0⟩]]
          [(⟨"s1", [(⟨5, 0⟩ : Point), ⟨5, 0⟩]⟩ : StrokeDefinition)] 10).score ∧
        (evaluateDrawing [[(⟨0, 0⟩ : Point), ⟨0, 0⟩]]
          [(⟨"s1", [(⟨5, 0⟩ : Point), ⟨5, 0⟩]⟩ : StrokeDefinition)] 10).score ≤
          ((100 : ℝ) : EReal) :=
  ⟨by simp,
    (C5_score [[(⟨0, 0⟩ : Point), ⟨0, 0⟩]]
      [(⟨"s1", [(⟨5, 0⟩ : Point), ⟨5, 0⟩]⟩ : StrokeDefinition)] 10
      (by simp) (by simp) (by norm_num)).2⟩

/-! ### C10 -/

theorem nearestDist_nonneg (p : Point) (l : List Point) : 0 ≤ nearestDist p l := by
  rw [nearestDist]
  have h : ∀ m : EReal, 0 ≤ m →
      0 ≤ l.foldl (fun m q => min m ((distance p q : ℝ) : EReal)) m := by
    induction l with
    | nil => intro m hm; simpa using hm
    | cons a rest ih =>
      intro m hm
      simp only [List.foldl_cons]
      exact ih _ (le_min hm (EReal.coe_nonneg.2 (distance_nonneg p a)))
  exact h ⊤ le_top

theorem evaluateStroke_averageDeviation_nonneg (stroke reference : List Point)
    (t : ℝ) : 0 ≤ (evaluateStroke stroke reference t).averageDeviation := by
  rw [evaluateStroke]
  split
  · exact le_top
  · refine EReal.div_nonneg (List.sum_nonneg ?_) ?_
    · intro x hx
      obtain ⟨pr, _, rfl⟩ := List.mem_map.1 hx
      exact nearestDist_nonneg _ _
    · rw [← EReal.coe_coe_eq_natCast]
      exact EReal.coe_nonneg.2 (Nat.cast_nonneg _)

theorem ereal_sum_range_top (n : ℕ) (f : ℕ → EReal) (h0 : ∀ j, 0 ≤ f j)
    (i : ℕ) (hi : i < n) (htop : f i = ⊤) :
    ∑ j ∈ Finset.range n, f j = ⊤ := by
  rw [← Finset.add_sum_erase _ f (Finset.mem_range.2 hi), htop]
  have h1 : (0 : EReal) ≤ ∑ j ∈ (Finset.range n).erase i, f j :=
    Finset.sum_nonneg fun j _ => h0 j
  refine EReal.top_add_of_ne_bot fun hb => ?_
  rw [hb] at h1
  exact absurd h1 (by simp)

theorem clampRoundScore_top (coverage threshold : ℝ) (ht : 0 < threshold) :
    clampRoundScore coverage ⊤ threshold = 0 := by
  rw [clampRoundScore,
    EReal.top_div_of_pos_ne_top (EReal.coe_pos.2 ht) (EReal.coe_ne_top _),
    max_eq_left le_top, EReal.top_mul_coe_of_pos (by norm_num), EReal.sub_top]
  rw [jsRound, if_neg bot_ne_top, if_pos rfl]
  rw [min_eq_right bot_le, max_eq_left bot_le]

/-- C10: whenever some scored pair `i < min(len strokes, len template)` has a
stroke with fewer than 2 points, that pair contributes the sentinel +∞
deviation; the summed deviation is then +∞, the summary's averageDeviation
is +∞, and the score collapses to 0 regardless of the other pairs. -/
theorem C10_short_stroke_poisons (strokes : List (List Point))
    (template : List StrokeDefinition) (threshold : ℝ)
    (hs : strokes ≠ []) (hr : template ≠ []) (ht : 0 < threshold)
    (i : ℕ) (hi : i < min strokes.length template.length)
    (hshort : (strokes.getD i []).length < 2) :
    (evaluateDrawing strokes template threshold).averageDeviation = ⊤ ∧
      (evaluateDrawing strokes template threshold).score = 0 := by
  have h : ¬(strokes.length = 0 ∨ template.length = 0) := by
    simp only [List.length_eq_zero, not_or]
    exact ⟨hs, hr⟩
  have hi' : i < pairCount strokes template := hi
  have hpos : (0 : EReal) < ((pairCount strokes template : ℕ) : EReal) := by
    rw [← EReal.coe_coe_eq_natCast]
    exact EReal.coe_pos.2 (by exact_mod_cast Nat.lt_of_le_of_lt (Nat.zero_le i) hi')
  have htop : (pairEval strokes template threshold i).averageDeviation = ⊤ := by
    rw [pairEval, evaluateStroke_degenerate threshold (Or.inl hshort)]
    rfl
  have hdev : drawDeviation strokes template threshold = ⊤ := by
    rw [drawDeviation,
      ereal_sum_range_top (pairCount strokes template)
        (fun j => (pairEval strokes template threshold j).averageDeviation)
        (fun j => evaluateStroke_averageDeviation_nonneg _ _ _) i hi' htop]
    exact EReal.top_div_of_pos_ne_top hpos (EReal.natCast_ne_top _)
  rw [evaluateDrawing_eq _ _ _ h]
  exact ⟨hdev, by rw [drawScore, hdev, clampRoundScore_top _ _ ht]⟩

theorem C10_short_stroke_poisons_witness :
    ([[(⟨0, 0⟩ : Point)]] : List (List Point)) ≠ [] ∧
      (evaluateDrawing [[(⟨0, 0⟩ : Point)]]
          [(⟨"s1", [(⟨0, 0⟩ : Point), ⟨1, 0⟩]⟩ : StrokeDefinition)] 1).averageDeviation = ⊤ ∧
        (evaluateDrawing [[(⟨0, 0⟩ : Point)]]
          [(⟨"s1", [(⟨0, 0⟩ : Point), ⟨1, 0⟩]⟩ : StrokeDefinition)] 1).score = 0 :=
  ⟨by simp,
    C10_short_stroke_poisons [[(⟨0, 0⟩ : Point)]]
      [(⟨"s1", [(⟨0, 0⟩ : Point), ⟨1, 0⟩]⟩ : StrokeDefinition)] 1
      (by simp) (by simp) (by norm_num) 0 (by simp) (by simp)⟩

/-! ### C6: joint scale invariance.  First, the scaling behaviour of the
geometry helpers. -/

theorem distance_scale (k : ℝ) (hk : 0 ≤ k) (a b : Point) :
    distance (scalePoint k a) (scalePoint k b) = k * distance a b := by
  simp only [distance, scalePoint]
  rw [show (k * a.x - k * b.x) ^ 2 + (k * a.y - k * b.y) ^ 2 =
      k ^ 2 * ((a.x - b.x) ^ 2 + (a.y - b.y) ^ 2) by ring,
    Real.sqrt_mul (sq_nonneg k), Real.sqrt_sq hk]

theorem segmentLengths_scale (k : ℝ) (hk : 0 ≤ k) :
    ∀ l : List Point,
      segmentLengths (scalePath k l) = (segmentLengths l).map (fun x => k * x) := by
  intro l
  induction l with
  | nil => simp [segmentLengths, scalePath]
  | cons a l ih =>
    rcases l with _ | ⟨b, rest⟩
    · simp [segmentLengths, scalePath]
    · simp only [scalePath, List.map_cons] at ih ⊢
      rw [segmentLengths, segmentLengths, List.map_cons, distance_scale k hk]
      exact congrArg _ ih

theorem scanl_add_map_mul (k : ℝ) :
    ∀ (l : List ℝ) (a : ℝ),
      (l.map (fun x => k * x)).scanl (· + ·) (k * a) =
        (l.scanl (· + ·) a).map (fun x => k * x) := by
  intro l
  induction l with
  | nil => intro a; simp
  | cons x xs ih =>
    intro a
    simp only [List.map_cons, List.scanl_cons]
    rw [show k * a + k * x = k * (a + x) by ring, ih (a + x)]
    simp

theorem lengthSegments_scale (k : ℝ) (hk : 0 ≤ k) (l : List Point) :
    lengthSegments (scalePath k l) = (lengthSegments l).map (fun x => k * x) := by
  rw [lengthSegments, lengthSegments, segmentLengths_scale k hk]
  have h := scanl_add_map_mul k (segmentLengths l) 0
  rw [mul_zero] at h
  exact h

theorem sum_map_mul_left {α : Type} (k : ℝ) (g : α → ℝ) (l : List α) :
    (l.map (fun x => k * g x)).sum = k * (l.map g).sum := by
  induction l with
  | nil => simp
  | cons a l ih => simp [ih, mul_add]

theorem findIdxGe_map_mul (k : ℝ) (hk : 0 < k) (target : ℝ) :
    ∀ l : List ℝ,
      findIdxGe (k * target) (l.map (fun x => k * x)) = findIdxGe target l := by
  intro l
  induction l with
  | nil => simp [findIdxGe]
  | cons v rest ih =>
    rw [List.map_cons, findIdxGe, findIdxGe, ih]
    by_cases h : target ≤ v
    · rw [if_pos h, if_pos (mul_le_mul_of_nonneg_left h hk.le)]
    · rw [if_neg h, if_neg fun hc => h (le_of_mul_le_mul_left hc hk)]

theorem findIdxGe_none_iff (target : ℝ) :
    ∀ l : List ℝ, findIdxGe target l = none ↔ ∀ v ∈ l, v < target := by
  intro l
  induction l with
  | nil => simp [findIdxGe]
  | cons v rest ih =>
    rw [findIdxGe]
    by_cases h : target ≤ v
    · rw [if_pos h]
      simp only [List.mem_cons]
      constructor
      · intro hc; exact absurd hc (by simp)
      · intro hall; exact absurd (hall v (Or.inl rfl)) (not_lt.2 h)
    · rw [if_neg h]
      simp only [Option.map_eq_none', ih, List.mem_cons]
      constructor
      · rintro hall v' (rfl | hv')
        · exact not_le.1 h
        · exact hall v' hv'
      · intro hall v' hv'
        exact hall v' (Or.inr hv')

theorem findIdxGe_some_spec (target : ℝ) :
    ∀ (l : List ℝ) (j : ℕ), findIdxGe target l = some j →
      j < l.length ∧ target ≤ l.getD j 0 ∧ ∀ m < j, l.getD m 0 < target := by
  intro l
  induction l with
  | nil => intro j h; simp [findIdxGe] at h
  | cons v rest ih =>
    intro j h
    rw [findIdxGe] at h
    by_cases hv : target ≤ v
    · rw [if_pos hv] at h
      obtain rfl : (0 : ℕ) = j := Option.some.inj h
      exact ⟨by simp, hv, fun m hm => absurd hm (by omega)⟩
    · rw [if_neg hv] at h
      obtain ⟨j', hfind, rfl⟩ := Option.map_eq_some'.1 h
      obtain ⟨h1, h2, h3⟩ := ih j' hfind
      refine ⟨by simpa using h1, by simpa using h2, ?_⟩
      intro m hm
      rcases m with _ | m'
      · simpa using not_le.1 hv
      · simpa using h3 m' (by omega)

theorem getD_map_mul (k : ℝ) (l : List ℝ) (m : ℕ) :
    (l.map (fun x => k * x)).getD m 0 = k * l.getD m 0 := by
  by_cases h : m < l.length
  · rw [List.getD_eq_getElem _ _ (by simpa using h), List.getD_eq_getElem _ _ h,
      List.getElem_map]
  · rw [List.getD_eq_default _ _ (by simpa using le_of_not_lt h),
      List.getD_eq_default _ _ (le_of_not_lt h), mul_zero]

theorem getD_scalePath (k : ℝ) (l : List Point) (m : ℕ) :
    (scalePath k l).getD m defaultPoint = scalePoint k (l.getD m defaultPoint) := by
  by_cases h : m < l.length
  · rw [scalePath, List.getD_eq_getElem _ _ (by simpa using h),
      List.getD_eq_getElem _ _ h, List.getElem_map]
  · rw [scalePath, List.getD_eq_default _ _ (by simpa using le_of_not_lt h),
      List.getD_eq_default _ _ (le_of_not_lt h)]
    simp [scalePoint, defaultPoint]

theorem resampleAt_scale (k : ℝ) (hk : 0 < k) (points : List Point) (segs : List ℝ)
    (totalLength : ℝ) (sampleCount i : ℕ)
    (h0 : segs.getD 0 0 = 0)
    (htarget : 0 ≤ totalLength * (i : ℝ) / ((sampleCount : ℝ) - 1))
    (hmem : ∃ v ∈ segs, totalLength * (i : ℝ) / ((sampleCount : ℝ) - 1) ≤ v) :
    resampleAt (scalePath k points) (segs.map (fun x => k * x)) (k * totalLength)
      sampleCount i = scalePoint k (resampleAt points segs totalLength sampleCount i) := by
  simp only [resampleAt]
  rw [show k * totalLength * (i : ℝ) / ((sampleCount : ℝ) - 1) =
      k * (totalLength * (i : ℝ) / ((sampleCount : ℝ) - 1)) by ring]
  rw [findIdxGe_map_mul k hk _ segs]
  set target := totalLength * (i : ℝ) / ((sampleCount : ℝ) - 1) with htdef
  rcases hfi : findIdxGe target segs with _ | j
  · exfalso
    obtain ⟨v, hv, hle⟩ := hmem
    exact absurd hle (not_le.2 ((findIdxGe_none_iff target segs).1 hfi v hv))
  · obtain ⟨hjlen, hjtar, hjprev⟩ := findIdxGe_some_spec target segs j hfi
    simp only [Option.getD_some]
    rw [getD_map_mul, getD_map_mul, getD_scalePath, getD_scalePath]
    by_cases hseg : segs.getD j 0 - segs.getD (j - 1) 0 = 0
    · have hj0 : j = 0 := by
        by_contra hjne
        have hm := hjprev (j - 1) (by omega)
        have hlt : segs.getD (j - 1) 0 < segs.getD j 0 := lt_of_lt_of_le hm hjtar
        exact absurd hseg (sub_ne_zero.2 (ne_of_gt hlt))
      subst hj0
      have htar0 : target = 0 := le_antisymm (h0 ▸ hjtar) htarget
      rw [show (0 : ℕ) - 1 = 0 from rfl, h0]
      norm_num [htar0, scalePoint]
    · have hseg' : k * segs.getD j 0 - k * segs.getD (j - 1) 0 ≠ 0 := by
        rw [show k * segs.getD j 0 - k * segs.getD (j - 1) 0 =
            k * (segs.getD j 0 - segs.getD (j - 1) 0) by ring]
        exact mul_ne_zero hk.ne' hseg
      rw [if_neg hseg', if_neg hseg]
      rw [show k * target - k * segs.getD (j - 1) 0 =
          k * (target - segs.getD (j - 1) 0) by ring,
        show k * segs.getD j 0 - k * segs.getD (j - 1) 0 =
          k * (segs.getD j 0 - segs.getD (j - 1) 0) by ring,
        mul_div_mul_left _ _ hk.ne']
      simp only [scalePoint, Point.mk.injEq]
      constructor <;> ring

theorem segmentLengths_nonneg : ∀ l : List Point, ∀ x ∈ segmentLengths l, 0 ≤ x := by
  intro l
  induction l with
  | nil => simp [segmentLengths]
  | cons a l ih =>
    rcases l with _ | ⟨b, rest⟩
    · simp [segmentLengths]
    · intro x hx
      rw [segmentLengths] at hx
      rcases List.mem_cons.1 hx with rfl | hx'
      · exact distance_nonneg a b
      · exact ih x hx'

theorem lengthSegments_getD_zero (l : List Point) :
    (lengthSegments l).getD 0 0 = 0 := by
  rw [lengthSegments]
  cases hsl : segmentLengths l <;> simp [List.scanl]

theorem sum_mem_scanl : ∀ (l : List ℝ) (a : ℝ), a + l.sum ∈ l.scanl (· + ·) a := by
  intro l
  induction l with
  | nil => intro a; simp
  | cons x xs ih =>
    intro a
    simp only [List.scanl_cons, List.sum_cons, List.mem_cons]
    rw [← add_assoc]
    exact List.mem_append_right _ (ih (a + x))

theorem total_mem_lengthSegments (l : List Point) :
    (segmentLengths l).sum ∈ lengthSegments l := by
  have h := sum_mem_scanl (segmentLengths l) 0
  rwa [zero_add] at h

theorem sum_map_mul_id (k : ℝ) (l : List ℝ) :
    (l.map (fun x => k * x)).sum = k * l.sum := by
  induction l with
  | nil => simp
  | cons x xs ih => simp [ih, mul_add]

theorem resamplePath_scale (k : ℝ) (hk : 0 < k) (points : List Point) (n : ℕ) :
    resamplePath (scalePath k points) n = scalePath k (resamplePath points n) := by
  by_cases hne : points = []
  · subst hne
    simp [resamplePath, scalePath]
  · have hne' : scalePath k points ≠ [] := fun hc => hne (List.map_eq_nil.1 hc)
    rw [resamplePath, resamplePath, if_neg hne, if_neg hne']
    rw [segmentLengths_scale k hk.le, sum_map_mul_id]
    by_cases hzero : (segmentLengths points).sum = 0
    · rw [hzero, mul_zero, if_pos rfl, if_pos rfl]
    · rw [if_neg (mul_ne_zero hk.ne' hzero), if_neg hzero]
      rw [lengthSegments_scale k hk.le]
      conv_rhs => rw [scalePath, List.map_map]
      refine List.map_congr_left fun i hi => ?_
      have hi' : i < n := List.mem_range.1 hi
      have hLpos : 0 < (segmentLengths points).sum :=
        lt_of_le_of_ne (List.sum_nonneg (segmentLengths_nonneg points)) (Ne.symm hzero)
      have htb : 0 ≤ (segmentLengths points).sum * (i : ℝ) / ((n : ℝ) - 1) ∧
          (segmentLengths points).sum * (i : ℝ) / ((n : ℝ) - 1) ≤
            (segmentLengths points).sum := by
        rcases n with _ | _ | n
        · exact absurd hi' (by omega)
        · have hi0 : i = 0 := by omega
          subst hi0
          norm_num [hLpos.le]
        · have hd : (0 : ℝ) < ((n + 2 : ℕ) : ℝ) - 1 := by
            push_cast
            have : (0 : ℝ) ≤ (n : ℝ) := Nat.cast_nonneg n
            linarith
          constructor
          · exact div_nonneg (mul_nonneg hLpos.le (Nat.cast_nonneg i)) hd.le
          · rw [div_le_iff hd]
            have hile : (i : ℝ) ≤ ((n + 2 : ℕ) : ℝ) - 1 := by
              push_cast
              have : i ≤ n + 1 := by omega
              have := (Nat.cast_le (α := ℝ)).2 this
              push_cast at this
              linarith
            calc (segmentLengths points).sum * (i : ℝ) ≤
                (segmentLengths points).sum * (((n + 2 : ℕ) : ℝ) - 1) :=
                  mul_le_mul_of_nonneg_left hile hLpos.le
              _ = (segmentLengths points).sum * (((n + 2 : ℕ) : ℝ) - 1) := rfl
      exact resampleAt_scale k hk points (lengthSegments points)
        ((segmentLengths points).sum) n i (lengthSegments_getD_zero points) htb.1
        ⟨(segmentLengths points).sum, total_mem_lengthSegments points, htb.2⟩

/-- Real-valued form of the `minDist` fold, for a non-empty candidate list
`q :: l`. -/
def nearestDistR (p q : Point) (l : List Point) : ℝ :=
  l.foldl (fun m r => min m (distance p r)) (distance p q)

theorem foldl_min_coe (p : Point) :
    ∀ (l : List Point) (a : ℝ),
      l.foldl (fun m q => min m ((distance p q : ℝ) : EReal)) ((a : ℝ) : EReal) =
        ((l.foldl (fun m q => min m (distance p q)) a : ℝ) : EReal) := by
  intro l
  induction l with
  | nil => intro a; rfl
  | cons q rest ih =>
    intro a
    simp only [List.foldl_cons]
    rw [ereal_coe_min, ih]

theorem nearestDist_cons (p q : Point) (l : List Point) :
    nearestDist p (q :: l) = ((nearestDistR p q l : ℝ) : EReal) := by
  rw [nearestDist, List.foldl_cons, min_top_left_ereal, foldl_min_coe, nearestDistR]

theorem real_mul_min (k a b : ℝ) (hk : 0 ≤ k) :
    k * min a b = min (k * a) (k * b) := by
  rcases le_total a b with h | h
  · rw [min_eq_left h, min_eq_left (mul_le_mul_of_nonneg_left h hk)]
  · rw [min_eq_right h, min_eq_right (mul_le_mul_of_nonneg_left h hk)]

theorem nearestDistR_scale (k : ℝ) (hk : 0 ≤ k) (p q : Point) (l : List Point) :
    nearestDistR (scalePoint k p) (scalePoint k q) (scalePath k l) =
      k * nearestDistR p q l := by
  rw [nearestDistR, nearestDistR, scalePath]
  have h : ∀ (l' : List Point) (a : ℝ),
      (l'.map (scalePoint k)).foldl
          (fun m r => min m (distance (scalePoint k p) r)) (k * a) =
        k * l'.foldl (fun m r => min m (distance p r)) a := by
    intro l'
    induction l' with
    | nil => intro a; rfl
    | cons r rest ih =>
      intro a
      simp only [List.map_cons, List.foldl_cons]
      rw [distance_scale k hk, ← real_mul_min k a _ hk, ih]
  rw [distance_scale k hk]
  exact h l (distance p q)

theorem nearestDist_scale_cons (k : ℝ) (hk : 0 ≤ k) (x c : Point) (ls : List Point) :
    nearestDist (scalePoint k x) (scalePath k (c :: ls)) =
      ((k * nearestDistR x c ls : ℝ) : EReal) := by
  rw [show scalePath k (c :: ls) = scalePoint k c :: scalePath k ls from rfl,
    nearestDist_cons, nearestDistR_scale k hk]

theorem sum_map_coe {α : Type} (g : α → ℝ) (l : List α) :
    (l.map (fun x => ((g x : ℝ) : EReal))).sum = (((l.map g).sum : ℝ) : EReal) := by
  induction l with
  | nil => simp
  | cons a rest ih => simp [ih, ← EReal.coe_add]

theorem resamplePath_ne_nil (points : List Point) (n : ℕ) (hne : points ≠ [])
    (hn : n ≠ 0) : resamplePath points n ≠ [] := by
  rw [resamplePath, if_neg hne]
  by_cases h : (segmentLengths points).sum = 0
  · rw [if_pos h]
    exact hne
  · rw [if_neg h]
    intro hc
    have hlen := congrArg List.length hc
    simp at hlen
    exact hn hlen

/-- Coverage numerator of `evaluateStroke` on scoreable input. -/
def strokeCoverage (stroke reference : List Point) (threshold : ℝ) : ℝ :=
  ((((resamplePath reference 160).map
      (fun refPoint => nearestDist refPoint (resamplePath stroke 90))).filter
        (fun d => decide (d ≤ ((threshold : ℝ) : EReal)))).length : ℝ) /
    (((resamplePath reference 160).map
      (fun refPoint => nearestDist refPoint (resamplePath stroke 90))).length : ℝ)

/-- Average deviation of `evaluateStroke` on scoreable input. -/
def strokeDeviation (stroke reference : List Point) : EReal :=
  ((((resamplePath stroke 90).zip (resamplePath stroke 90).tail).map
      (fun pr => nearestDist pr.1 (resamplePath reference 160))).sum) /
    (((resamplePath stroke 90).length : ℕ) : EReal)

/-- Segment classification of `evaluateStroke` on scoreable input. -/
def strokeSegments (stroke reference : List Point) (threshold : ℝ) : List Segment :=
  ((resamplePath stroke 90).zip (resamplePath stroke 90).tail).map
    (fun pr =>
      ⟨pr.1, pr.2,
        if nearestDist pr.1 (resamplePath reference 160) ≤ ((threshold : ℝ) : EReal)
        then hitColor else missColor⟩)

/-- Closed form of `evaluateStroke` on scoreable input. -/
theorem evaluateStroke_eq (stroke reference : List Point) (threshold : ℝ)
    (h : ¬(stroke.length < 2 ∨ reference.length = 0)) :
    evaluateStroke stroke reference threshold =
      ⟨strokeCoverage stroke reference threshold,
        strokeDeviation stroke reference,
        strokeSegments stroke reference threshold⟩ := by
  rw [evaluateStroke, if_neg h]
  rfl

theorem coverage_filter_eq (k t : ℝ) (hk : 0 < k) (g : Point → ℝ) :
    ∀ l : List Point,
      ((l.map (fun rp => ((k * g rp : ℝ) : EReal))).filter
          (fun d => decide (d ≤ ((k * t : ℝ) : EReal)))).length =
        ((l.map (fun rp => ((g rp : ℝ) : EReal))).filter
          (fun d => decide (d ≤ ((t : ℝ) : EReal)))).length := by
  intro l
  induction l with
  | nil => rfl
  | cons a rest ih =>
    rw [List.map_cons, List.map_cons, List.filter_cons, List.filter_cons]
    have hdec : decide (((k * g a : ℝ) : EReal) ≤ ((k * t : ℝ) : EReal)) =
        decide (((g a : ℝ) : EReal) ≤ ((t : ℝ) : EReal)) := by
      refine decide_eq_decide.2 ?_
      rw [EReal.coe_le_coe_iff, EReal.coe_le_coe_iff]
      exact mul_le_mul_left hk
    rw [hdec]
    cases hb : decide (((g a : ℝ) : EReal) ≤ ((t : ℝ) : EReal))
    · rw [if_neg (by simp), if_neg (by simp)]
      exact ih
    · rw [if_pos rfl, if_pos rfl, List.length_cons, List.length_cons, ih]

/-- C6: scaling every point of the stroke, every point of the reference and
the threshold by the same factor k > 0 leaves the coverage unchanged and
multiplies the average deviation by exactly k (also in the sentinel case,
where k·∞ = ∞). -/
theorem C6_scale_invariance (stroke reference : List Point) (threshold k : ℝ)
    (ht : 0 < threshold) (hk : 0 < k) :
    (evaluateStroke (scalePath k stroke) (scalePath k reference)
        (k * threshold)).coverage =
      (evaluateStroke stroke reference threshold).coverage ∧
      (evaluateStroke (scalePath k stroke) (scalePath k reference)
          (k * threshold)).averageDeviation =
        ((k : ℝ) : EReal) * (evaluateStroke stroke reference threshold).averageDeviation := by
  by_cases hcond : stroke.length < 2 ∨ reference.length = 0
  · have hcond' : (scalePath k stroke).length < 2 ∨ (scalePath k reference).length = 0 := by
      simpa [scalePath] using hcond
    rw [evaluateStroke_degenerate _ hcond', evaluateStroke_degenerate _ hcond]
    exact ⟨rfl, (EReal.coe_mul_top_of_pos hk).symm⟩
  · have hcond' : ¬((scalePath k stroke).length < 2 ∨ (scalePath k reference).length = 0) := by
      simpa [scalePath] using hcond
    push_neg at hcond
    obtain ⟨hs2, hr0⟩ := hcond
    have hs90 := resamplePath_ne_nil stroke 90
      (by intro hc; rw [hc] at hs2; simp at hs2) (by norm_num)
    have hr160 := resamplePath_ne_nil reference 160
      (by intro hc; rw [hc] at hr0; simp at hr0) (by norm_num)
    obtain ⟨s0, sTail, hsEq⟩ := List.exists_cons_of_ne_nil hs90
    obtain ⟨r0, rTail, hrEq⟩ := List.exists_cons_of_ne_nil hr160
    rw [evaluateStroke_eq _ _ _ hcond',
      evaluateStroke_eq _ _ _ (by push_neg; exact ⟨hs2, hr0⟩)]
    constructor
    · show strokeCoverage (scalePath k stroke) (scalePath k reference) (k * threshold) =
        strokeCoverage stroke reference threshold
      rw [strokeCoverage, strokeCoverage, resamplePath_scale k hk stroke 90,
        resamplePath_scale k hk reference 160, hsEq, hrEq]
      have hspr : scalePath k (r0 :: rTail) = (r0 :: rTail).map (scalePoint k) := rfl
      have hmapL : ((r0 :: rTail).map (scalePoint k)).map
          (fun refPoint => nearestDist refPoint (scalePath k (s0 :: sTail))) =
          (r0 :: rTail).map (fun rp => ((k * nearestDistR rp s0 sTail : ℝ) : EReal)) := by
        rw [List.map_map]
        exact List.map_congr_left fun rp _ => nearestDist_scale_cons k hk.le rp s0 sTail
      have hmapR : (r0 :: rTail).map (fun refPoint => nearestDist refPoint (s0 :: sTail)) =
          (r0 :: rTail).map (fun rp => ((nearestDistR rp s0 sTail : ℝ) : EReal)) :=
        List.map_congr_left fun rp _ => nearestDist_cons rp s0 sTail
      rw [hspr, hmapL, hmapR,
        coverage_filter_eq k threshold hk (fun rp => nearestDistR rp s0 sTail) (r0 :: rTail)]
      simp [List.length_map]
    · show strokeDeviation (scalePath k stroke) (scalePath k reference) =
        ((k : ℝ) : EReal) * strokeDeviation stroke reference
      rw [strokeDeviation, strokeDeviation, resamplePath_scale k hk stroke 90,
        resamplePath_scale k hk reference 160, hsEq, hrEq]
      have hsp : scalePath k (s0 :: sTail) = (s0 :: sTail).map (scalePoint k) := rfl
      have htail : ((s0 :: sTail).map (scalePoint k)).tail = sTail.map (scalePoint k) := rfl
      have hzip : (scalePath k (s0 :: sTail)).zip (scalePath k (s0 :: sTail)).tail =
          ((s0 :: sTail).zip sTail).map
            (Prod.map (scalePoint k) (scalePoint k)) := by
        rw [hsp, htail, List.zip_map]
      have hdevL : (((s0 :: sTail).zip sTail).map
            (Prod.map (scalePoint k) (scalePoint k))).map
              (fun pr => nearestDist pr.1 (scalePath k (r0 :: rTail))) =
          ((s0 :: sTail).zip sTail).map
            (fun pr => ((k * nearestDistR pr.1 r0 rTail : ℝ) : EReal)) := by
        rw [List.map_map]
        refine List.map_congr_left fun pr _ => ?_
        show nearestDist (Prod.map (scalePoint k) (scalePoint k) pr).1
            (scalePath k (r0 :: rTail)) = _
        rw [Prod.map_fst]
        exact nearestDist_scale_cons k hk.le pr.1 r0 rTail
      have hdevR : ((s0 :: sTail).zip sTail).map (fun pr => nearestDist pr.1 (r0 :: rTail)) =
          ((s0 :: sTail).zip sTail).map
            (fun pr => ((nearestDistR pr.1 r0 rTail : ℝ) : EReal)) :=
        List.map_congr_left fun pr _ => nearestDist_cons pr.1 r0 rTail
      have hlen : (scalePath k (s0 :: sTail)).length = (s0 :: sTail).length :=
        List.length_map _ _
      have hsum : (((s0 :: sTail).zip sTail).map
            (fun pr => k * nearestDistR pr.1 r0 rTail)).sum =
          k * (((s0 :: sTail).zip sTail).map
            (fun pr => nearestDistR pr.1 r0 rTail)).sum :=
        sum_map_mul_left k _ _
      rw [List.tail_cons, hzip, hdevL, hdevR, sum_map_coe, sum_map_coe, hsum, hlen,
        ← EReal.coe_coe_eq_natCast, ← EReal.coe_div, ← EReal.coe_div, ← EReal.coe_mul]
      exact EReal.coe_eq_coe_iff.2 (mul_div_assoc _ _ _)

theorem C6_scale_invariance_witness :
    (0 : ℝ) < 1 ∧ (0 : ℝ) < 2 ∧
      ((evaluateStroke (scalePath 2 [(⟨0, 0⟩ : Point), ⟨0, 0⟩])
            (scalePath 2 [(⟨5, 0⟩ : Point), ⟨5, 0⟩]) (2 * 1)).coverage =
          (evaluateStroke [(⟨0, 0⟩ : Point), ⟨0, 0⟩] [(⟨5, 0⟩ : Point), ⟨5, 0⟩] 1).coverage ∧
        (evaluateStroke (scalePath 2 [(⟨0, 0⟩ : Point), ⟨0, 0⟩])
            (scalePath 2 [(⟨5, 0⟩ : Point), ⟨5, 0⟩]) (2 * 1)).averageDeviation =
          (((2 : ℝ)) : EReal) *
            (evaluateStroke [(⟨0, 0⟩ : Point), ⟨0, 0⟩] [(⟨5, 0⟩ : Point), ⟨5, 0⟩] 1).averageDeviation) :=
  ⟨by norm_num, by norm_num,
    C6_scale_invariance [⟨0, 0⟩, ⟨0, 0⟩] [⟨5, 0⟩, ⟨5, 0⟩] 1 2 (by norm_num) (by norm_num)⟩

end Calligraphy

end
